import Mathlib

/-!
# Unregistered-taint controller

A shallow embedding of `pkg/controllers/nodeclaim/unregisteredtaint/controller.go`.

* Kubernetes objects are records holding the fields the controller reads or writes.
* `time.Time` and `time.Duration` are integers counting nanoseconds; `time.Since`
  saturates at the `int64` range like Go's `Time.Sub`.
* The kube client and the wall clock are an explicit capability record `Client σ`
  acting on a world state `σ`; `Reconcile` threads that state and additionally
  returns a trace with one `NodeRun` per loop iteration.
-/

set_option maxRecDepth 100000

namespace UnregisteredTaint

/-! ## Data model -/

/-- Nanoseconds, as in Go's `time.Duration`. -/
abbrev Duration := Int

/-- An instant, in nanoseconds since an arbitrary epoch. -/
abbrev Time := Int

/-- Go's `time.Second`. -/
def Second : Duration := 1000000000

/-- Go's `time.Minute`. -/
def Minute : Duration := 60 * Second

/-- Go's `maxDuration` (`1<<63 - 1`). -/
def maxDuration : Duration := 2 ^ 63 - 1

/-- Go's `minDuration` (`-1 << 63`). -/
def minDuration : Duration := -(2 ^ 63)

/-- Go's `Time.Sub`: the difference, saturated to the range of `Duration`. -/
def Time.Sub (t u : Time) : Duration :=
  if t - u > maxDuration then maxDuration
  else if t - u < minDuration then minDuration
  else t - u

/-- Go's `time.Since(t)`, i.e. `time.Now().Sub(t)`, with the clock reading made explicit. -/
def Since (now t : Time) : Duration := Time.Sub now t

/-- Modelled from the spec: the well-known marker key (`v1.UnregisteredTaintKey` of the
karpenter API package); its declaration is not part of this repository. -/
def UnregisteredTaintKey : String := "karpenter.sh/unregistered"

/-- Modelled from the spec: the label carried by nodes that completed registration
(`v1.NodeRegisteredLabelKey` of the karpenter API package). -/
def NodeRegisteredLabelKey : String := "karpenter.sh/registered"

/-- Modelled from the spec: the well-known readiness condition type (`corev1.NodeReady`). -/
def NodeReady : String := "Ready"

/-- Modelled from the spec: the condition status meaning true (`corev1.ConditionTrue`). -/
def ConditionTrue : String := "True"

/-- The `corev1.Taint` record. -/
structure Taint where
  Key : String
  Value : String
  Effect : String
  TimeAdded : Option Time
  deriving DecidableEq, Repr

/-- The fields of `corev1.NodeCondition` read by the controller. -/
structure NodeCondition where
  Type_ : String
  Status : String
  LastTransitionTime : Time
  deriving DecidableEq, Repr

/-- The fields of `corev1.Node` read or written by the controller. -/
structure Node where
  Name : String
  Labels : List (String × String)
  Taints : List Taint
  Conditions : List NodeCondition
  deriving DecidableEq, Repr

/-- An error value; `IsConflict` is what `errors.IsConflict` reports for it. -/
structure Err where
  IsConflict : Bool
  Message : String
  deriving DecidableEq, Repr

/-- The `reconcile.Result` record. -/
structure Result where
  Requeue : Bool
  RequeueAfter : Duration
  deriving DecidableEq, Repr

/-- The fields of `wait.Backoff` that bound the number of attempts. -/
structure Backoff where
  Steps : Int
  deriving DecidableEq, Repr

/-! ## Pure helpers of the controller -/

/-- The loop of `hasUnregisteredTaint` over `node.Spec.Taints`. -/
def hasUnregisteredTaintLoop : List Taint → Bool
  | [] => false
  | taint :: rest =>
    if taint.Key == UnregisteredTaintKey then true else hasUnregisteredTaintLoop rest

/-- The function `hasUnregisteredTaint`. -/
def hasUnregisteredTaint (node : Node) : Bool :=
  hasUnregisteredTaintLoop node.Taints

/-- The loop of `isNodeReady` over `node.Status.Conditions`: it returns at the first
condition whose type is `Ready`. -/
def isNodeReadyLoop (now : Time) : List NodeCondition → Bool
  | [] => false
  | condition :: rest =>
    if condition.Type_ == NodeReady then
      condition.Status == ConditionTrue &&
        decide (Since now condition.LastTransitionTime > Minute)
    else isNodeReadyLoop now rest

/-- The function `isNodeReady`, with the clock reading of `time.Since` as a parameter. -/
def isNodeReady (now : Time) (node : Node) : Bool :=
  isNodeReadyLoop now node.Conditions

/-- The inner loop of `Reconcile` that builds `newTaints` by appending to an empty slice. -/
def newTaints (node : Node) : List Taint :=
  node.Taints.foldl
    (fun acc taint => if taint.Key != UnregisteredTaintKey then acc ++ [taint] else acc) []

/-! ## The injected capabilities -/

/-- The capabilities `Reconcile` calls, acting on a world state `σ` (the node store, the
wall clock and whatever else the surroundings hold).

* `List labels` is `c.kubeClient.List(ctx, nodeList, client.HasLabels(labels))`;
* `Patch obj base` is `c.kubeClient.Patch(ctx, obj, client.MergeFrom(base))`; a failed
  call leaves `obj` as it was, and after a successful one `Reconcile` no longer reads it;
* `Now` is the reading of `time.Now()`;
* `Sleep` is the wait between two attempts of the retry helper;
* `DefaultRetry` is the value of `retry.DefaultRetry`, declared outside this repository. -/
structure Env (σ : Type) where
  List : List String → σ → Except Err (List Node) × σ
  Patch : Node → Node → σ → Option Err × σ
  Now : σ → Time
  Sleep : σ → σ
  DefaultRetry : Backoff

/-- One call of the retried function: the state it was issued in and what it returned. -/
structure Call (σ : Type) where
  pre : σ
  result : Option Err

/-- What the retry helper hands back: its error, the state reached, and its calls in order. -/
structure RetryOutcome (σ : Type) where
  err : Option Err
  state : σ
  calls : List (Call σ)

/-- Modelled from the spec: the loop of the retry helper (`retry.OnError` over
`wait.ExponentialBackoff` in client-go, not part of this repository), with `steps` attempts
left. A call that succeeds ends the loop with no error, a non-conflict error ends it with
that error, a conflict is remembered in `lastErr` and retried after a sleep while attempts
remain; when they run out the last conflict is returned. -/
def OnErrorLoop {σ : Type} (env : Env σ) (fn : σ → Option Err × σ) :
    Nat → Option Err → σ → RetryOutcome σ
  | 0, lastErr, s => ⟨lastErr, s, []⟩
  | k + 1, _, s =>
    match fn s with
    | (none, s1) => ⟨none, s1, [⟨s, none⟩]⟩
    | (some e, s1) =>
      if e.IsConflict then
        if k = 0 then ⟨some e, s1, [⟨s, some e⟩]⟩
        else
          let r := OnErrorLoop env fn k (some e) (env.Sleep s1)
          ⟨r.err, r.state, ⟨s, some e⟩ :: r.calls⟩
      else ⟨some e, s1, [⟨s, some e⟩]⟩

/-- Modelled from the spec: `retry.RetryOnConflict(backoff, fn)` of client-go, a bounded
retry of `fn` on conflict errors with at most `backoff.Steps` attempts. -/
def RetryOnConflict {σ : Type} (env : Env σ) (backoff : Backoff) (fn : σ → Option Err × σ)
    (s : σ) : RetryOutcome σ :=
  OnErrorLoop env fn backoff.Steps.toNat none s

/-! ## Reconcile -/

/-- One `Patch` request issued by `Reconcile`, with the state it was issued in. -/
structure Attempt (σ : Type) where
  pre : σ
  obj : Node
  base : Node
  result : Option Err

/-- Whether the attempt was answered with a conflict error. -/
def Attempt.conflicted {σ : Type} (a : Attempt σ) : Bool :=
  match a.result with
  | some err => err.IsConflict
  | none => false

/-- A record written to the logger. -/
inductive LogRecord where
  | error (err : Err) (msg : String) (node : String)
  | info (msg : String) (node : String)
  deriving DecidableEq, Repr

/-- The trace of one iteration of the loop over `nodeList.Items`. -/
structure NodeRun (σ : Type) where
  pre : σ
  node : Node
  attempts : List (Attempt σ)
  log : Option LogRecord

/-- The body of the loop of `Reconcile` for one node, started in state `s`. -/
def reconcileNode {σ : Type} (env : Env σ) (s : σ) (node : Node) : σ × NodeRun σ :=
  if !hasUnregisteredTaint node || !isNodeReady (env.Now s) node then
    (s, ⟨s, node, [], none⟩)
  else
    let nodeCopy : Node := { node with Taints := newTaints node }
    let r := RetryOnConflict env env.DefaultRetry (fun st => env.Patch nodeCopy node st) s
    let attempts := r.calls.map (fun c => (⟨c.pre, nodeCopy, node, c.result⟩ : Attempt σ))
    match r.err with
    | some err =>
      (r.state,
        ⟨s, node, attempts, some (.error err "failed to remove unregistered taint" node.Name)⟩)
    | none =>
      (r.state,
        ⟨s, node, attempts, some (.info "removed unregistered taint from node" node.Name)⟩)

/-- The loop `for i := range nodeList.Items` of `Reconcile`. -/
def reconcileLoop {σ : Type} (env : Env σ) : σ → List Node → σ × List (NodeRun σ)
  | s, [] => (s, [])
  | s, node :: rest =>
    let step := reconcileNode env s node
    let tail := reconcileLoop env step.1 rest
    (tail.1, step.2 :: tail.2)

/-- What one pass of `Reconcile` returns and does. -/
structure Outcome (σ : Type) where
  result : Result
  err : Option Err
  state : σ
  runs : List (NodeRun σ)

/-- The method `Controller.Reconcile`. -/
def Reconcile {σ : Type} (env : Env σ) (s : σ) : Outcome σ :=
  match env.List [NodeRegisteredLabelKey] s with
  | (.error err, s1) => ⟨⟨false, 0⟩, some err, s1, []⟩
  | (.ok items, s1) =>
    let loop := reconcileLoop env s1 items
    ⟨⟨false, Minute⟩, none, loop.1, loop.2⟩

/-- A node is eligible at clock reading `now` when both tests of `Reconcile` pass. -/
def eligible (now : Time) (node : Node) : Bool :=
  hasUnregisteredTaint node && isNodeReady now node

/-- The taints of `ts` whose key is not the marker key. -/
def withoutMarker (ts : List Taint) : List Taint :=
  ts.filter (fun t => t.Key != UnregisteredTaintKey)

/-! ## An in-memory node store -/

/-- Modelled from the spec: the external state store (the cluster API server, not part of
this repository) as an in-memory store holding the nodes and the wall clock. -/
structure Store where
  nodes : List Node
  clock : Time
  deriving DecidableEq, Repr

/-- Whether `node` carries a label with key `key`. -/
def hasLabel (key : String) (node : Node) : Bool :=
  node.Labels.any (fun kv => kv.1 == key)

/-- Modelled from the spec: the list operation of the store, returning the stored nodes
that carry every label of the selector. -/
def Store.list (labels : List String) (st : Store) : List Node :=
  st.nodes.filter (fun n => labels.all (fun k => hasLabel k n))

/-- Modelled from the spec: applying the merge patch from `base` to `obj` to a stored node;
only the taint field is written, and only when `obj` and `base` differ in it. -/
def mergeFrom (obj base stored : Node) : Node :=
  { stored with Taints := if obj.Taints = base.Taints then stored.Taints else obj.Taints }

/-- Modelled from the spec: the store after the merge patch from `base` to `obj` has been
applied to the nodes named like `obj`. -/
def Store.apply (obj base : Node) (st : Store) : Store :=
  { st with nodes := st.nodes.map (fun n => if n.Name = obj.Name then mergeFrom obj base n else n) }

/-- The taints the store holds for the node called `name`. -/
def Store.taintsOf (st : Store) (name : String) : Option (List Taint) :=
  (st.nodes.find? (fun n => n.Name = name)).map (fun n => n.Taints)

/-- The error of a request on a node the store does not hold. -/
def notFound : Err := ⟨false, "not found"⟩

/-- A version-conflict error. -/
def conflict : Err := ⟨true, "the object has been modified"⟩

/-- The settings of the in-memory store used as a test double: the error of the list
operation if it is to fail, the outcome assigned to the updates of each node name (`none`
for success), the time one backoff sleep takes, and the retry policy. -/
structure Fake where
  listErr : Option Err
  faults : String → Option Err
  tick : Nat
  retry : Backoff

/-- Modelled from the spec: the capabilities backed by the in-memory store, with update
outcomes assigned per node name. -/
def fakeEnv (f : Fake) : Env Store where
  List := fun labels st =>
    match f.listErr with
    | some err => (.error err, st)
    | none => (.ok (st.list labels), st)
  Patch := fun obj base st =>
    match f.faults obj.Name with
    | some err => (some err, st)
    | none =>
      if st.nodes.any (fun n => n.Name = obj.Name) then (none, st.apply obj base)
      else (some notFound, st)
  Now := fun st => st.clock
  Sleep := fun st => { st with clock := st.clock + f.tick }
  DefaultRetry := f.retry

/-- Modelled from the spec: the capabilities backed by the in-memory store with a
conditional update (accepted only if the stored taints equal those of the snapshot `base`,
a conflict otherwise) and a concurrent writer `writer` that acts right after the listing. -/
def casEnv (writer : Store → Store) (retry : Backoff) : Env Store where
  List := fun labels st => (.ok (st.list labels), writer st)
  Patch := fun obj base st =>
    match st.taintsOf obj.Name with
    | none => (some notFound, st)
    | some ts => if ts = base.Taints then (none, st.apply obj base) else (some conflict, st)
  Now := fun st => st.clock
  Sleep := fun st => st
  DefaultRetry := retry

/-- The requirement that an attempt works on a fresh read: the taints it submits are the
marker-free filter of the taints the store holds when the attempt is issued. -/
def freshlyRead (a : Attempt Store) : Prop :=
  ∀ ts, a.pre.taintsOf a.base.Name = some ts → a.obj.Taints = withoutMarker ts

/-- Every stored node called `name` is free of the marker. -/
def cleanAt (name : String) (st : Store) : Prop :=
  ∀ m ∈ st.nodes, m.Name = name → hasUnregisteredTaint m = false

/-- No registered node of the store is eligible at clock reading `c` unless a node of the
same name that is eligible is still waiting in `rest`; the clock of the store reads `c`. -/
def settled (c : Time) (rest : List Node) (st : Store) : Prop :=
  st.clock = c ∧ ∀ m ∈ st.list [NodeRegisteredLabelKey], eligible c m = true →
    ∃ n ∈ rest, n.Name = m.Name ∧ eligible c n = true

/-! ## Sample data -/

/-- A retry policy with five attempts, the value client-go documents for its default. -/
def fiveSteps : Backoff := ⟨5⟩

/-- The marker taint. -/
def markerTaint : Taint := ⟨UnregisteredTaintKey, "", "NoExecute", none⟩

/-- An unrelated taint `A`. -/
def taintA : Taint := ⟨"example.com/a", "1", "NoSchedule", none⟩

/-- An unrelated taint `B`. -/
def taintB : Taint := ⟨"example.com/b", "2", "NoSchedule", none⟩

/-- A `Ready` condition with status `True` that transitioned at instant `t`. -/
def readySince (t : Time) : NodeCondition := ⟨NodeReady, ConditionTrue, t⟩

/-- A registered node called `name` with the given taints and conditions. -/
def sampleNode (name : String) (ts : List Taint) (cs : List NodeCondition) : Node :=
  ⟨name, [(NodeRegisteredLabelKey, "true")], ts, cs⟩

/-- A marked node that has been ready since instant `0`. -/
def nodeX : Node := sampleNode "x" [taintA, markerTaint, taintB] [readySince 0]

/-- Another marked node that has been ready since instant `0`. -/
def nodeY : Node := sampleNode "y" [markerTaint] [readySince 0]

/-- A store holding `nodeY` and `nodeX`, two minutes after instant `0`. -/
def sampleStore : Store := ⟨[nodeY, nodeX], 2 * Minute⟩

/-- A test double in which the updates of `y` always conflict and all others succeed. -/
def yConflicts : Fake :=
  ⟨none, fun name => if name = "y" then some conflict else none, 10000000, fiveSteps⟩

/-- A test double in which every update succeeds. -/
def allSucceed : Fake := ⟨none, fun _ => none, 10000000, fiveSteps⟩

/-- A test double whose list operation fails. -/
def listFails : Fake := ⟨some ⟨false, "store unreachable"⟩, fun _ => none, 10000000, fiveSteps⟩

/-- A node whose status lists two `Ready` conditions: a false one, then a true and old one. -/
def twoReady : Node :=
  sampleNode "z" [markerTaint] [⟨NodeReady, "False", 0⟩, readySince 0]

/-- A ready but unmarked node. -/
def readyUnmarked : Node := sampleNode "a" [taintA] [readySince 0]

/-- A marked node with no `Ready` condition that is `True`. -/
def markedNotReady : Node := sampleNode "b" [markerTaint] [⟨NodeReady, "False", 0⟩]

/-- A marked node that became ready thirty seconds before the clock of `mixedStore`. -/
def markedNotStable : Node := sampleNode "c" [markerTaint] [readySince (90 * Second)]

/-- A store holding one node of each kind, two minutes after instant `0`. -/
def mixedStore : Store := ⟨[readyUnmarked, markedNotReady, markedNotStable, nodeX], 2 * Minute⟩

/-- The iteration of the loop for `nodeY` in the pass over `sampleStore` under `yConflicts`. -/
def yRun : NodeRun Store := (reconcileNode (fakeEnv yConflicts) sampleStore nodeY).2

/-- The iteration of the loop for `nodeX` in the pass over `sampleStore` under `yConflicts`,
which starts after the four backoff sleeps spent on `nodeY`. -/
def xRun : NodeRun Store :=
  (reconcileNode (fakeEnv yConflicts) ⟨[nodeY, nodeX], 2 * Minute + 4 * 10000000⟩ nodeX).2

/-- An unrelated taint `C`, added by a concurrent writer. -/
def taintC : Taint := ⟨"example.com/c", "3", "NoSchedule", none⟩

/-- A concurrent writer that appends the taint `t` to the stored nodes called `name`. -/
def addTaint (name : String) (t : Taint) (st : Store) : Store :=
  { st with
    nodes := st.nodes.map
      (fun n => if n.Name = name then { n with Taints := n.Taints ++ [t] } else n) }

/-- A store holding only `nodeX`, two minutes after instant `0`. -/
def xStore : Store := ⟨[nodeX], 2 * Minute⟩

/-- The conditional-update store in which another writer adds `taintC` to `x` right after
the listing. -/
def racing : Env Store := casEnv (addTaint "x" taintC) fiveSteps

/-- The iteration of the loop for `nodeX` in the pass over `xStore` under `racing`. -/
def racedRun : NodeRun Store := (reconcileNode racing (addTaint "x" taintC xStore) nodeX).2

/-- The first update request of `racedRun`. -/
def racedAttempt : Attempt Store :=
  ⟨addTaint "x" taintC xStore, { nodeX with Taints := [taintA, taintB] }, nodeX, some conflict⟩

/-! ## Facts about the pure helpers -/

theorem since_gt_minute (now t : Time) : Since now t > Minute ↔ now - t > Minute := by
  unfold Since Time.Sub
  have hmax : maxDuration = 9223372036854775807 := by norm_num [maxDuration]
  have hmin : minDuration = -9223372036854775808 := by norm_num [minDuration]
  have hmn : Minute = 60000000000 := by norm_num [Minute, Second]
  have key : ∀ x : Int,
      (if x > 9223372036854775807 then (9223372036854775807 : Int)
        else if x < -9223372036854775808 then -9223372036854775808 else x) > 60000000000 ↔
      x > 60000000000 := by
    intro x
    split_ifs <;> omega
  rw [hmax, hmin, hmn]
  exact key (now - t)

theorem newTaints_fold (ts acc : List Taint) :
    ts.foldl (fun acc taint => if taint.Key != UnregisteredTaintKey then acc ++ [taint] else acc)
      acc = acc ++ withoutMarker ts := by
  induction ts generalizing acc with
  | nil => simp [withoutMarker]
  | cons t rest ih =>
    rw [List.foldl_cons, ih]
    by_cases h : (t.Key != UnregisteredTaintKey) = true
    · simp [withoutMarker, List.filter_cons, h]
    · simp [withoutMarker, List.filter_cons, h]

theorem newTaints_eq (node : Node) : newTaints node = withoutMarker node.Taints := by
  unfold newTaints
  rw [newTaints_fold]
  simp

theorem hasUnregisteredTaintLoop_iff (ts : List Taint) :
    hasUnregisteredTaintLoop ts = true ↔ ∃ t ∈ ts, t.Key = UnregisteredTaintKey := by
  induction ts with
  | nil => simp [hasUnregisteredTaintLoop]
  | cons t rest ih =>
    unfold hasUnregisteredTaintLoop
    by_cases h : t.Key = UnregisteredTaintKey
    · simp [h]
    · simp [h, ih]

theorem withoutMarker_clean (ts : List Taint) :
    hasUnregisteredTaintLoop (withoutMarker ts) = false := by
  rw [Bool.eq_false_iff]
  intro h
  obtain ⟨t, ht, hk⟩ := (hasUnregisteredTaintLoop_iff _).1 h
  simp [withoutMarker, List.mem_filter] at ht
  exact ht.2 hk

theorem withoutMarker_ne (ts : List Taint) (h : hasUnregisteredTaintLoop ts = true) :
    withoutMarker ts ≠ ts := by
  intro heq
  rw [← heq, withoutMarker_clean] at h
  exact Bool.false_ne_true h

theorem isNodeReadyLoop_iff (now : Time) (cs : List NodeCondition) :
    isNodeReadyLoop now cs = true ↔
      ∃ c, cs.find? (fun c => c.Type_ == NodeReady) = some c ∧
        c.Status = ConditionTrue ∧ now - c.LastTransitionTime > Minute := by
  induction cs with
  | nil => simp [isNodeReadyLoop]
  | cons c rest ih =>
    unfold isNodeReadyLoop
    by_cases h : (c.Type_ == NodeReady) = true
    · simp [h, List.find?_cons, since_gt_minute]
    · simp [h, List.find?_cons, ih]

/-! ## Facts about the retry helper -/

theorem onErrorLoop_calls_le {σ : Type} (env : Env σ) (fn : σ → Option Err × σ) :
    ∀ (n : Nat) (lastErr : Option Err) (s : σ),
      (OnErrorLoop env fn n lastErr s).calls.length ≤ n := by
  intro n
  induction n with
  | zero => intro lastErr s; simp [OnErrorLoop]
  | succ k ih =>
    intro lastErr s
    unfold OnErrorLoop
    rcases hfn : fn s with ⟨_ | e, s1⟩
    · simp
    · by_cases hc : e.IsConflict = true
      · by_cases hk : k = 0
        · simp [hc, hk]
        · have := ih (some e) (env.Sleep s1)
          simp [hc, hk]
          omega
      · simp [hc]

theorem onErrorLoop_calls_ne_nil {σ : Type} (env : Env σ) (fn : σ → Option Err × σ)
    (n : Nat) (lastErr : Option Err) (s : σ) (hn : 0 < n) :
    (OnErrorLoop env fn n lastErr s).calls ≠ [] := by
  obtain ⟨k, rfl⟩ : ∃ k, n = k + 1 := ⟨n - 1, by omega⟩
  unfold OnErrorLoop
  rcases hfn : fn s with ⟨_ | e, s1⟩
  · simp
  · by_cases hc : e.IsConflict = true
    · by_cases hk : k = 0
      · simp [hc, hk]
      · simp [hc, hk]
    · simp [hc]

theorem onErrorLoop_all_conflict {σ : Type} (env : Env σ) (fn : σ → Option Err × σ) :
    ∀ (n : Nat) (lastErr : Option Err) (s : σ), 0 < n →
      (∀ c ∈ (OnErrorLoop env fn n lastErr s).calls,
        ∃ e, c.result = some e ∧ e.IsConflict = true) →
      (OnErrorLoop env fn n lastErr s).calls.length = n ∧
        ∃ e, (OnErrorLoop env fn n lastErr s).err = some e ∧ e.IsConflict = true := by
  intro n
  induction n with
  | zero => intro lastErr s hn; omega
  | succ k ih =>
    intro lastErr s _
    unfold OnErrorLoop
    rcases hfn : fn s with ⟨_ | e, s1⟩
    · intro h
      obtain ⟨e, he, _⟩ := h ⟨s, none⟩ (by simp)
      simp at he
    · by_cases hc : e.IsConflict = true
      · by_cases hk : k = 0
        · intro _
          simp [hc, hk]
        · intro h
          have hrec := ih (some e) (env.Sleep s1) (by omega) (by
            intro c hcm
            apply h c
            simp [hc, hk, hcm])
          simp [hc, hk]
          exact hrec
      · intro h
        obtain ⟨e2, he2, hconf⟩ := h ⟨s, some e⟩ (by simp [hc])
        simp at he2
        rw [← he2] at hconf
        exact absurd hconf hc

theorem onErrorLoop_calls_chain {σ : Type} (env : Env σ) (fn : σ → Option Err × σ) :
    ∀ (n : Nat) (lastErr : Option Err) (s : σ),
      (∀ c ∈ (OnErrorLoop env fn n lastErr s).calls.head?, c.pre = s) ∧
        List.Chain' (fun c d => d.pre = env.Sleep (fn c.pre).2)
          (OnErrorLoop env fn n lastErr s).calls := by
  intro n
  induction n with
  | zero => intro lastErr s; simp [OnErrorLoop]
  | succ k ih =>
    intro lastErr s
    unfold OnErrorLoop
    rcases hfn : fn s with ⟨_ | e, s1⟩
    · simp
    · by_cases hc : e.IsConflict = true
      · by_cases hk : k = 0
        · simp [hc, hk]
        · obtain ⟨hhead, hchain⟩ := ih (some e) (env.Sleep s1)
          simp only [hc, hk, if_true, if_false, List.head?_cons, Option.mem_def,
            Option.some.injEq, forall_eq', List.chain'_cons', true_and]
          refine ⟨fun d hd => ?_, hchain⟩
          rw [hfn]
          exact hhead d hd
      · simp [hc]

/-! ## Facts about one loop iteration -/

theorem eligible_eq_false_iff (now : Time) (node : Node) :
    (!hasUnregisteredTaint node || !isNodeReady now node) = true ↔ eligible now node = false := by
  unfold eligible
  cases hasUnregisteredTaint node <;> cases isNodeReady now node <;> simp

theorem reconcileNode_skip {σ : Type} (env : Env σ) (s : σ) (node : Node)
    (h : eligible (env.Now s) node = false) :
    reconcileNode env s node = (s, ⟨s, node, [], none⟩) := by
  unfold reconcileNode
  rw [if_pos ((eligible_eq_false_iff _ _).2 h)]

theorem reconcileNode_run {σ : Type} (env : Env σ) (s : σ) (node : Node)
    (h : eligible (env.Now s) node = true) :
    (reconcileNode env s node).1 =
        (RetryOnConflict env env.DefaultRetry
          (fun st => env.Patch { node with Taints := newTaints node } node st) s).state ∧
      (reconcileNode env s node).2.pre = s ∧
      (reconcileNode env s node).2.node = node ∧
      (reconcileNode env s node).2.attempts =
        (RetryOnConflict env env.DefaultRetry
          (fun st => env.Patch { node with Taints := newTaints node } node st) s).calls.map
          (fun c => (⟨c.pre, { node with Taints := newTaints node }, node, c.result⟩ :
            Attempt σ)) ∧
      (reconcileNode env s node).2.log =
        (match (RetryOnConflict env env.DefaultRetry
          (fun st => env.Patch { node with Taints := newTaints node } node st) s).err with
        | some err => some (.error err "failed to remove unregistered taint" node.Name)
        | none => some (.info "removed unregistered taint from node" node.Name)) := by
  have hne : ¬ ((!hasUnregisteredTaint node || !isNodeReady (env.Now s) node) = true) := by
    rw [eligible_eq_false_iff, h]
    simp
  unfold reconcileNode
  rw [if_neg hne]
  dsimp only
  rcases hR : (RetryOnConflict env env.DefaultRetry
    (fun st => env.Patch { node with Taints := newTaints node } node st) s).err with _ | e
  · exact ⟨rfl, rfl, rfl, rfl, rfl⟩
  · exact ⟨rfl, rfl, rfl, rfl, rfl⟩

theorem reconcileNode_pre_node {σ : Type} (env : Env σ) (s : σ) (node : Node) :
    (reconcileNode env s node).2.pre = s ∧ (reconcileNode env s node).2.node = node := by
  cases h : eligible (env.Now s) node
  · rw [reconcileNode_skip env s node h]
    exact ⟨rfl, rfl⟩
  · exact ⟨(reconcileNode_run env s node h).2.1, (reconcileNode_run env s node h).2.2.1⟩

theorem reconcileNode_attempts_request {σ : Type} (env : Env σ) (s : σ) (node : Node) :
    ∀ a ∈ (reconcileNode env s node).2.attempts,
      a.base = node ∧ a.obj = { node with Taints := withoutMarker node.Taints } := by
  intro a ha
  cases h : eligible (env.Now s) node
  · rw [reconcileNode_skip env s node h] at ha
    simp at ha
  · rw [(reconcileNode_run env s node h).2.2.2.1] at ha
    obtain ⟨c, _, rfl⟩ := List.mem_map.1 ha
    simp [newTaints_eq]

theorem reconcileNode_attempts_le {σ : Type} (env : Env σ) (s : σ) (node : Node) :
    (reconcileNode env s node).2.attempts.length ≤ env.DefaultRetry.Steps.toNat := by
  cases h : eligible (env.Now s) node
  · rw [reconcileNode_skip env s node h]
    simp
  · rw [(reconcileNode_run env s node h).2.2.2.1, List.length_map]
    exact onErrorLoop_calls_le env _ _ _ _

theorem reconcileNode_attempts_ne_nil_iff {σ : Type} (env : Env σ) (s : σ) (node : Node)
    (hsteps : 0 < env.DefaultRetry.Steps) :
    (reconcileNode env s node).2.attempts ≠ [] ↔ eligible (env.Now s) node = true := by
  cases h : eligible (env.Now s) node
  · rw [reconcileNode_skip env s node h]
    simp
  · rw [(reconcileNode_run env s node h).2.2.2.1]
    have hn : 0 < env.DefaultRetry.Steps.toNat := by omega
    have := onErrorLoop_calls_ne_nil env
      (fun st => env.Patch { node with Taints := newTaints node } node st) _ none s hn
    simpa [RetryOnConflict] using this

theorem reconcileNode_all_conflict {σ : Type} (env : Env σ) (s : σ) (node : Node)
    (hsteps : 0 < env.DefaultRetry.Steps) (h : eligible (env.Now s) node = true)
    (hall : ∀ a ∈ (reconcileNode env s node).2.attempts,
      ∃ e, a.result = some e ∧ e.IsConflict = true) :
    (reconcileNode env s node).2.attempts.length = env.DefaultRetry.Steps.toNat ∧
      ∃ e, (reconcileNode env s node).2.log =
          some (.error e "failed to remove unregistered taint" node.Name) ∧
        e.IsConflict = true := by
  have hrun := reconcileNode_run env s node h
  have hn : 0 < env.DefaultRetry.Steps.toNat := by omega
  have hcalls : ∀ c ∈ (OnErrorLoop env
      (fun st => env.Patch { node with Taints := newTaints node } node st)
      env.DefaultRetry.Steps.toNat none s).calls,
      ∃ e, c.result = some e ∧ e.IsConflict = true := by
    intro c hc
    have := hall ⟨c.pre, { node with Taints := newTaints node }, node, c.result⟩ (by
      rw [hrun.2.2.2.1]
      exact List.mem_map.2 ⟨c, hc, rfl⟩)
    simpa using this
  obtain ⟨hlen, e, herr, hconf⟩ := onErrorLoop_all_conflict env _ _ none s hn hcalls
  refine ⟨?_, e, ?_, hconf⟩
  · rw [hrun.2.2.2.1, List.length_map]
    exact hlen
  · rw [hrun.2.2.2.2]
    unfold RetryOnConflict
    rw [herr]

/-! ## Facts about the loop over the listed nodes -/

theorem reconcileLoop_nodes {σ : Type} (env : Env σ) :
    ∀ (nodes : List Node) (s : σ),
      (reconcileLoop env s nodes).2.map (fun r => r.node) = nodes := by
  intro nodes
  induction nodes with
  | nil => intro s; simp [reconcileLoop]
  | cons node rest ih =>
    intro s
    simp [reconcileLoop, ih, (reconcileNode_pre_node env s node).2]

theorem reconcileLoop_mem {σ : Type} (env : Env σ) :
    ∀ (nodes : List Node) (s : σ), ∀ r ∈ (reconcileLoop env s nodes).2,
      ∃ s0 node, node ∈ nodes ∧ r = (reconcileNode env s0 node).2 := by
  intro nodes
  induction nodes with
  | nil => intro s r hr; simp [reconcileLoop] at hr
  | cons node rest ih =>
    intro s r hr
    simp only [reconcileLoop, List.mem_cons] at hr
    rcases hr with rfl | hr
    · exact ⟨s, node, List.mem_cons_self _ _, rfl⟩
    · obtain ⟨s0, n, hn, rfl⟩ := ih _ r hr
      exact ⟨s0, n, List.mem_cons_of_mem _ hn, rfl⟩

theorem reconcile_ok {σ : Type} (env : Env σ) (s s1 : σ) (items : List Node)
    (hlist : env.List [NodeRegisteredLabelKey] s = (.ok items, s1)) :
    Reconcile env s =
      ⟨⟨false, Minute⟩, none, (reconcileLoop env s1 items).1, (reconcileLoop env s1 items).2⟩ := by
  unfold Reconcile
  rw [hlist]

theorem reconcile_runs_mem {σ : Type} (env : Env σ) (s : σ) :
    ∀ r ∈ (Reconcile env s).runs, ∃ s0 node, r = (reconcileNode env s0 node).2 := by
  intro r hr
  unfold Reconcile at hr
  rcases hl : env.List [NodeRegisteredLabelKey] s with ⟨err | items, s1⟩
  · rw [hl] at hr
    simp at hr
  · rw [hl] at hr
    obtain ⟨s0, node, _, h⟩ := reconcileLoop_mem env items s1 r hr
    exact ⟨s0, node, h⟩

theorem onErrorLoop_state_inv {σ : Type} (env : Env σ) (fn : σ → Option Err × σ)
    (P : σ → Prop) (hfn : ∀ s, P s → P (fn s).2) (hsl : ∀ s, P s → P (env.Sleep s)) :
    ∀ (n : Nat) (lastErr : Option Err) (s : σ), P s →
      P (OnErrorLoop env fn n lastErr s).state := by
  intro n
  induction n with
  | zero => intro lastErr s hs; simpa [OnErrorLoop] using hs
  | succ k ih =>
    intro lastErr s hs
    have h1 := hfn s hs
    unfold OnErrorLoop
    rcases hfn : fn s with ⟨_ | e, s1⟩
    · rw [hfn] at h1
      exact h1
    · rw [hfn] at h1
      by_cases hc : e.IsConflict = true
      · by_cases hk : k = 0
        · simpa [hc, hk] using h1
        · simpa [hc, hk] using ih (some e) (env.Sleep s1) (hsl s1 h1)
      · simpa [hc] using h1

theorem reconcileNode_state_inv {σ : Type} (env : Env σ) (P : σ → Prop) (node : Node)
    (hpatch : ∀ st, P st → P (env.Patch { node with Taints := newTaints node } node st).2)
    (hsl : ∀ st, P st → P (env.Sleep st)) (s : σ) (hs : P s) :
    P (reconcileNode env s node).1 := by
  cases h : eligible (env.Now s) node
  · rw [reconcileNode_skip env s node h]
    exact hs
  · rw [(reconcileNode_run env s node h).1]
    exact onErrorLoop_state_inv env _ P hpatch hsl _ none s hs

theorem reconcileLoop_state_inv {σ : Type} (env : Env σ) (P : σ → Prop)
    (hsl : ∀ st, P st → P (env.Sleep st)) :
    ∀ (nodes : List Node),
      (∀ node ∈ nodes, ∀ st, P st →
        P (env.Patch { node with Taints := newTaints node } node st).2) →
      ∀ s, P s → P (reconcileLoop env s nodes).1 := by
  intro nodes
  induction nodes with
  | nil => intro _ s hs; simpa [reconcileLoop] using hs
  | cons node rest ih =>
    intro hpatch s hs
    simp only [reconcileLoop]
    apply ih (fun n hn => hpatch n (List.mem_cons_of_mem _ hn))
    exact reconcileNode_state_inv env P node (hpatch node (List.mem_cons_self _ _)) hsl s hs

theorem reconcileLoop_all_skip {σ : Type} (env : Env σ) (s : σ) :
    ∀ (nodes : List Node), (∀ n ∈ nodes, eligible (env.Now s) n = false) →
      reconcileLoop env s nodes = (s, nodes.map (fun n => (⟨s, n, [], none⟩ : NodeRun σ))) := by
  intro nodes
  induction nodes with
  | nil => intro _; rfl
  | cons node rest ih =>
    intro h
    simp only [reconcileLoop]
    rw [reconcileNode_skip env s node (h node (List.mem_cons_self _ _))]
    simp only []
    rw [ih (fun n hn => h n (List.mem_cons_of_mem _ hn))]
    rfl

/-! ## Facts about the in-memory store -/

theorem apply_of_absent (obj base : Node) (st : Store)
    (h : st.nodes.any (fun n => decide (n.Name = obj.Name)) = false) :
    st.apply obj base = st := by
  unfold Store.apply
  have hall : ∀ n ∈ st.nodes, (if n.Name = obj.Name then mergeFrom obj base n else n) = n := by
    intro n hn
    have : ¬ n.Name = obj.Name := by
      intro heq
      have : st.nodes.any (fun n => decide (n.Name = obj.Name)) = true :=
        List.any_eq_true.2 ⟨n, hn, by simp [heq]⟩
      rw [h] at this
      exact Bool.false_ne_true this
    rw [if_neg this]
  rw [List.map_congr_left hall, List.map_id']

theorem fake_patch_state (f : Fake) (obj base : Node) (st : Store) :
    ((fakeEnv f).Patch obj base st).2 = st ∨
      ((fakeEnv f).Patch obj base st).2 = st.apply obj base := by
  simp only [fakeEnv]
  rcases f.faults obj.Name with _ | e
  · by_cases h : st.nodes.any (fun n => decide (n.Name = obj.Name)) = true
    · right; simp [h]
    · left; simp [h]
  · left; rfl

theorem fake_patch_ok (f : Fake) (obj base : Node) (st : Store)
    (hf : f.faults obj.Name = none) :
    (((fakeEnv f).Patch obj base st).1 = none ∨
        ((fakeEnv f).Patch obj base st).1 = some notFound) ∧
      ((fakeEnv f).Patch obj base st).2 = st.apply obj base := by
  simp only [fakeEnv, hf]
  by_cases h : st.nodes.any (fun n => decide (n.Name = obj.Name)) = true
  · simp [h]
  · have h2 : st.nodes.any (fun n => decide (n.Name = obj.Name)) = false := by simpa using h
    rw [if_neg h]
    exact ⟨Or.inr rfl, (apply_of_absent obj base st h2).symm⟩

theorem cleanAt_apply (name : String) (obj base : Node) (st : Store)
    (hobj : hasUnregisteredTaintLoop obj.Taints = false) (h : cleanAt name st) :
    cleanAt name (st.apply obj base) := by
  intro m hm hname
  simp only [Store.apply, List.mem_map] at hm
  obtain ⟨n, hn, rfl⟩ := hm
  by_cases hno : n.Name = obj.Name
  · rw [if_pos hno] at hname ⊢
    have hn' := h n hn hname
    unfold hasUnregisteredTaint mergeFrom at *
    by_cases ht : obj.Taints = base.Taints
    · simpa [ht] using hn'
    · simpa [ht] using hobj
  · rw [if_neg hno] at hname ⊢
    exact h n hn hname

theorem cleanAt_fake_patch (f : Fake) (name : String) (node : Node) (st : Store)
    (h : cleanAt name st) :
    cleanAt name ((fakeEnv f).Patch { node with Taints := newTaints node } node st).2 := by
  rcases fake_patch_state f { node with Taints := newTaints node } node st with h1 | h1
  · rw [h1]; exact h
  · rw [h1]
    exact cleanAt_apply name _ node st (by simp [newTaints_eq, withoutMarker_clean]) h

theorem cleanAt_apply_self (node : Node) (st : Store)
    (hm : hasUnregisteredTaint node = true) :
    cleanAt node.Name (st.apply { node with Taints := newTaints node } node) := by
  intro m hmem hname
  simp only [Store.apply, List.mem_map] at hmem
  obtain ⟨n, hn, rfl⟩ := hmem
  by_cases hno : n.Name = node.Name
  · rw [if_pos hno]
    have hne : withoutMarker node.Taints ≠ node.Taints := withoutMarker_ne _ hm
    simp [hasUnregisteredTaint, mergeFrom, hne, newTaints_eq, withoutMarker_clean]
  · rw [if_neg hno] at hname
    exact absurd hname hno

theorem fake_first_attempt (f : Fake) (obj base : Node) (st : Store)
    (hf : f.faults obj.Name = none) (n : Nat) (hn : 0 < n) (lastErr : Option Err) :
    (OnErrorLoop (fakeEnv f) (fun s => (fakeEnv f).Patch obj base s) n lastErr st).state =
      st.apply obj base := by
  obtain ⟨k, rfl⟩ : ∃ k, n = k + 1 := ⟨n - 1, by omega⟩
  obtain ⟨hres, hst⟩ := fake_patch_ok f obj base st hf
  unfold OnErrorLoop
  rcases hp : (fakeEnv f).Patch obj base st with ⟨res, s1⟩
  rw [hp] at hres hst
  simp only at hres hst
  rcases hres with rfl | rfl
  · simpa using hst
  · simpa [notFound] using hst

theorem fake_step_clean (f : Fake) (s : Store) (node : Node)
    (hsteps : 0 < f.retry.Steps) (he : eligible s.clock node = true)
    (hf : f.faults node.Name = none) :
    cleanAt node.Name (reconcileNode (fakeEnv f) s node).1 := by
  have he' : eligible ((fakeEnv f).Now s) node = true := he
  rw [(reconcileNode_run (fakeEnv f) s node he').1]
  unfold RetryOnConflict
  have hn : 0 < (fakeEnv f).DefaultRetry.Steps.toNat := by
    show 0 < f.retry.Steps.toNat
    omega
  rw [fake_first_attempt f { node with Taints := newTaints node } node s hf _ hn none]
  apply cleanAt_apply_self
  unfold eligible at he
  cases hh : hasUnregisteredTaint node
  · rw [hh] at he
    simp at he
  · rfl

theorem fake_loop_clean (f : Fake) (hsteps : 0 < f.retry.Steps) :
    ∀ (nodes : List Node) (s : Store), ∀ r ∈ (reconcileLoop (fakeEnv f) s nodes).2,
      eligible r.pre.clock r.node = true → f.faults r.node.Name = none →
      cleanAt r.node.Name (reconcileLoop (fakeEnv f) s nodes).1 := by
  intro nodes
  induction nodes with
  | nil => intro s r hr; simp [reconcileLoop] at hr
  | cons node rest ih =>
    intro s r hr he hf
    simp only [reconcileLoop, List.mem_cons] at hr ⊢
    rcases hr with rfl | hr
    · rw [(reconcileNode_pre_node (fakeEnv f) s node).1,
        (reconcileNode_pre_node (fakeEnv f) s node).2] at he
      rw [(reconcileNode_pre_node (fakeEnv f) s node).2] at hf ⊢
      apply reconcileLoop_state_inv (fakeEnv f) (cleanAt node.Name) (fun st h => h) rest
        (fun n _ st h => cleanAt_fake_patch f node.Name n st h)
      exact fake_step_clean f s node hsteps he hf
    · exact ih _ r hr he hf

theorem fake_list_ok (f : Fake) (st : Store) (hl : f.listErr = none) :
    (fakeEnv f).List [NodeRegisteredLabelKey] st =
      (.ok (st.list [NodeRegisteredLabelKey]), st) := by
  simp [fakeEnv, hl]

theorem fake_list_error (f : Fake) (st : Store) (err : Err) (hl : f.listErr = some err) :
    Reconcile (fakeEnv f) st = ⟨⟨false, 0⟩, some err, st, []⟩ := by
  simp [Reconcile, fakeEnv, hl]

theorem reconcileNode_attempts_ne_nil {σ : Type} (env : Env σ) (s : σ) (node : Node)
    (h : (reconcileNode env s node).2.attempts ≠ []) :
    eligible (env.Now s) node = true ∧ 0 < env.DefaultRetry.Steps := by
  constructor
  · cases he : eligible (env.Now s) node
    · rw [reconcileNode_skip env s node he] at h
      exact absurd rfl h
    · rfl
  · have hle := reconcileNode_attempts_le env s node
    have hpos : 0 < (reconcileNode env s node).2.attempts.length :=
      List.length_pos.2 h
    omega

theorem reconcileNode_zero_steps {σ : Type} (env : Env σ) (s : σ) (node : Node)
    (h0 : env.DefaultRetry.Steps.toNat = 0) :
    (reconcileNode env s node).1 = s ∧ (reconcileNode env s node).2.attempts = [] := by
  cases he : eligible (env.Now s) node
  · rw [reconcileNode_skip env s node he]
    exact ⟨rfl, rfl⟩
  · obtain ⟨h1, _, _, h4, _⟩ := reconcileNode_run env s node he
    rw [h1, h4]
    unfold RetryOnConflict
    rw [h0]
    exact ⟨rfl, rfl⟩

theorem reconcileLoop_zero_steps {σ : Type} (env : Env σ)
    (h0 : env.DefaultRetry.Steps.toNat = 0) :
    ∀ (nodes : List Node) (s : σ), (reconcileLoop env s nodes).1 = s ∧
      ∀ r ∈ (reconcileLoop env s nodes).2, r.attempts = [] := by
  intro nodes
  induction nodes with
  | nil => intro s; simp [reconcileLoop]
  | cons node rest ih =>
    intro s
    obtain ⟨h1, h2⟩ := reconcileNode_zero_steps env s node h0
    simp only [reconcileLoop, List.mem_cons]
    rw [h1]
    refine ⟨(ih s).1, fun r hr => ?_⟩
    rcases hr with rfl | hr
    · exact h2
    · exact (ih s).2 r hr

theorem fake_node_state (f : Fake) (hf : ∀ name, f.faults name = none)
    (hsteps : 0 < f.retry.Steps) (s : Store) (node : Node) :
    (reconcileNode (fakeEnv f) s node).1 =
      if eligible s.clock node = true then s.apply { node with Taints := newTaints node } node
      else s := by
  cases he : eligible s.clock node
  · have he' : eligible ((fakeEnv f).Now s) node = false := he
    rw [reconcileNode_skip (fakeEnv f) s node he']
    simp
  · have he' : eligible ((fakeEnv f).Now s) node = true := he
    rw [(reconcileNode_run (fakeEnv f) s node he').1]
    unfold RetryOnConflict
    have hn : 0 < (fakeEnv f).DefaultRetry.Steps.toNat := by
      show 0 < f.retry.Steps.toNat
      omega
    rw [fake_first_attempt f { node with Taints := newTaints node } node s (hf _) _ hn none]
    simp

theorem eligible_mergeFrom_false (c : Time) (node n : Node)
    (hm : hasUnregisteredTaint node = true) :
    eligible c (mergeFrom { node with Taints := newTaints node } node n) = false := by
  have hne : withoutMarker node.Taints ≠ node.Taints := withoutMarker_ne _ hm
  simp [eligible, hasUnregisteredTaint, mergeFrom, hne, newTaints_eq, withoutMarker_clean]

theorem settled_step (f : Fake) (hf : ∀ name, f.faults name = none)
    (hsteps : 0 < f.retry.Steps) (c : Time) (node : Node) (rest : List Node) (s : Store)
    (h : settled c (node :: rest) s) :
    settled c rest (reconcileNode (fakeEnv f) s node).1 := by
  obtain ⟨hclock, hall⟩ := h
  rw [fake_node_state f hf hsteps s node, hclock]
  cases he : eligible c node
  · simp only [Bool.false_eq_true, if_false]
    refine ⟨hclock, fun m hm hme => ?_⟩
    obtain ⟨n, hn, hname, hne⟩ := hall m hm hme
    rcases List.mem_cons.1 hn with rfl | hn
    · rw [he] at hne
      exact absurd hne (by simp)
    · exact ⟨n, hn, hname, hne⟩
  · simp only [if_true]
    have hmark : hasUnregisteredTaint node = true := by
      unfold eligible at he
      cases hh : hasUnregisteredTaint node
      · rw [hh] at he
        simp at he
      · rfl
    refine ⟨hclock, fun m hm hme => ?_⟩
    simp only [Store.list, Store.apply, List.mem_filter, List.mem_map] at hm
    obtain ⟨⟨n0, hn0, rfl⟩, hlab⟩ := hm
    by_cases hno : n0.Name = node.Name
    · rw [if_pos hno, eligible_mergeFrom_false c node n0 hmark] at hme
      exact absurd hme (by simp)
    · rw [if_neg hno] at hme hlab ⊢
      obtain ⟨n, hn, hname, hne⟩ := hall n0
        (by simp only [Store.list, List.mem_filter]; exact ⟨hn0, hlab⟩) hme
      rcases List.mem_cons.1 hn with rfl | hn
      · exact absurd hname.symm hno
      · exact ⟨n, hn, hname, hne⟩

theorem settled_loop (f : Fake) (hf : ∀ name, f.faults name = none)
    (hsteps : 0 < f.retry.Steps) (c : Time) :
    ∀ (nodes : List Node) (s : Store), settled c nodes s →
      settled c [] (reconcileLoop (fakeEnv f) s nodes).1 := by
  intro nodes
  induction nodes with
  | nil => intro s h; simpa [reconcileLoop] using h
  | cons node rest ih =>
    intro s h
    simp only [reconcileLoop]
    exact ih _ (settled_step f hf hsteps c node rest s h)

theorem settled_initial (st : Store) :
    settled st.clock (st.list [NodeRegisteredLabelKey]) st :=
  ⟨rfl, fun m hm hme => ⟨m, hm, rfl, hme⟩⟩

theorem settled_second_pass (f : Fake) (hl : f.listErr = none) (s : Store)
    (h : settled s.clock [] s) :
    (Reconcile (fakeEnv f) s).state = s ∧ ∀ r ∈ (Reconcile (fakeEnv f) s).runs, r.attempts = [] := by
  have hskip : ∀ n ∈ s.list [NodeRegisteredLabelKey], eligible ((fakeEnv f).Now s) n = false := by
    intro n hn
    cases he : eligible ((fakeEnv f).Now s) n
    · rfl
    · obtain ⟨n2, hn2, _⟩ := h.2 n hn he
      simp at hn2
  rw [reconcile_ok (fakeEnv f) s s _ (fake_list_ok f s hl),
    reconcileLoop_all_skip (fakeEnv f) s _ hskip]
  refine ⟨rfl, fun r hr => ?_⟩
  simp only [List.mem_map] at hr
  obtain ⟨n, _, rfl⟩ := hr
  rfl

/-! ## Readiness -/

/-- C2, as amended: `isNodeReady` returns true exactly when the first condition of type
`Ready` among the node's status conditions has status `True` and a last transition time
with `now - lastTransitionTime > 1 minute`; such a condition that transitioned 59 seconds
ago gives false and one that transitioned 61 seconds ago gives true. -/
theorem isNodeReady_iff_first_ready (now : Time) (node : Node) :
    (isNodeReady now node = true ↔
      ∃ c, node.Conditions.find? (fun c => c.Type_ == NodeReady) = some c ∧
        c.Status = ConditionTrue ∧ now - c.LastTransitionTime > Minute) ∧
    (∀ c, node.Conditions.find? (fun c => c.Type_ == NodeReady) = some c →
      c.Status = ConditionTrue →
        (now - c.LastTransitionTime = 59 * Second → isNodeReady now node = false) ∧
        (now - c.LastTransitionTime = 61 * Second → isNodeReady now node = true)) := by
  refine ⟨isNodeReadyLoop_iff now node.Conditions, fun c hc hs => ⟨fun h => ?_, fun h => ?_⟩⟩
  · rw [Bool.eq_false_iff]
    intro hr
    obtain ⟨d, hd, _, hgt⟩ := (isNodeReadyLoop_iff now node.Conditions).1 hr
    rw [hc] at hd
    cases hd
    rw [h] at hgt
    norm_num [Minute, Second] at hgt
  · refine (isNodeReadyLoop_iff now node.Conditions).2 ⟨c, hc, hs, ?_⟩
    rw [h]
    norm_num [Minute, Second]

/-- The boundary of C2 on a concrete node: ready for 61 seconds gives true. -/
theorem isNodeReady_iff_first_ready_witness : isNodeReady (61 * Second) nodeX = true :=
  ((isNodeReady_iff_first_ready (61 * Second) nodeX).2 (readySince 0) (by decide)
    (by decide)).2 (by decide)

/-- C2 as stated fails: `twoReady` contains a `Ready` condition that is `True` and two
minutes old, yet `isNodeReady` stops at the earlier `Ready` condition and returns false. -/
theorem isNodeReady_not_iff_contains :
    ¬ (∀ (now : Time) (node : Node), isNodeReady now node = true ↔
        ∃ c ∈ node.Conditions, c.Type_ = NodeReady ∧ c.Status = ConditionTrue ∧
          now - c.LastTransitionTime > Minute) := by
  intro h
  have h1 : isNodeReady (2 * Minute) twoReady = true :=
    (h (2 * Minute) twoReady).2 ⟨readySince 0, by decide, by decide, by decide, by decide⟩
  exact absurd h1 (by decide)

/-- C10, as amended: a marked node whose first `Ready` condition is `True` is eligible
exactly when that condition has held for strictly more than one minute; when it
transitioned exactly one minute before now the node is not eligible. -/
theorem eligible_iff_held_longer_than_minute (now : Time) (node : Node) (c : NodeCondition)
    (hm : hasUnregisteredTaint node = true)
    (hc : node.Conditions.find? (fun c => c.Type_ == NodeReady) = some c)
    (hs : c.Status = ConditionTrue) :
    (eligible now node = true ↔ now - c.LastTransitionTime > Minute) ∧
    (now - c.LastTransitionTime = Minute → eligible now node = false) := by
  have key : eligible now node = true ↔ now - c.LastTransitionTime > Minute := by
    unfold eligible
    rw [hm, Bool.true_and]
    constructor
    · intro hr
      obtain ⟨d, hd, _, hgt⟩ := (isNodeReadyLoop_iff now node.Conditions).1 hr
      rw [hc] at hd
      cases hd
      exact hgt
    · intro hgt
      exact (isNodeReadyLoop_iff now node.Conditions).2 ⟨c, hc, hs, hgt⟩
  refine ⟨key, fun h => ?_⟩
  rw [Bool.eq_false_iff]
  intro he
  have hgt := key.1 he
  rw [h] at hgt
  exact lt_irrefl _ hgt

/-- C10 on a concrete node: ready for two minutes, hence eligible. -/
theorem eligible_iff_held_longer_than_minute_witness : eligible (2 * Minute) nodeX = true :=
  (eligible_iff_held_longer_than_minute (2 * Minute) nodeX (readySince 0) (by decide)
    (by decide) (by decide)).1.2 (by decide)

/-- C10 as stated fails at its own boundary: a marked node whose only `Ready` condition is
`True` and transitioned exactly one minute before now is not eligible. -/
theorem not_eligible_at_exactly_one_minute :
    ¬ (∀ (now : Time) (node : Node) (c : NodeCondition),
        hasUnregisteredTaint node = true → c ∈ node.Conditions → c.Type_ = NodeReady →
        c.Status = ConditionTrue → now - c.LastTransitionTime ≥ Minute →
        eligible now node = true) := by
  intro h
  have h1 : eligible Minute nodeX = true :=
    h Minute nodeX (readySince 0) (by decide) (by decide) (by decide) (by decide) (by decide)
  exact absurd h1 (by decide)

/-! ## The pass as a whole -/

/-- C1: in every pass, each update request submits as taint list exactly the observed taint
list of its node with the entries carrying the marker key filtered out, so every other
taint is kept unchanged and in order and nothing is added. -/
theorem reconcile_submits_filtered_taints {σ : Type} (env : Env σ) (s : σ)
    (r : NodeRun σ) (hr : r ∈ (Reconcile env s).runs) (a : Attempt σ) (ha : a ∈ r.attempts) :
    a.obj.Taints = r.node.Taints.filter (fun t => t.Key != UnregisteredTaintKey) := by
  obtain ⟨s0, node, rfl⟩ := reconcile_runs_mem env s r hr
  rw [(reconcileNode_attempts_request env s0 node a ha).2, (reconcileNode_pre_node env s0 node).2]
  rfl

/-- C1 on the taints `[A, Marker, B]`: the request submits exactly `[A, B]`. -/
theorem reconcile_submits_filtered_taints_witness :
    xRun ∈ (Reconcile (fakeEnv yConflicts) sampleStore).runs ∧
      xRun.node.Taints = [taintA, markerTaint, taintB] ∧
      xRun.attempts.length = 1 ∧ ∀ a ∈ xRun.attempts, a.obj.Taints = [taintA, taintB] :=
  ⟨List.mem_cons_of_mem _ (List.mem_cons_self _ _), rfl, by decide, fun a ha =>
    (reconcile_submits_filtered_taints (fakeEnv yConflicts) sampleStore xRun
      (List.mem_cons_of_mem _ (List.mem_cons_self _ _)) a ha).trans (by decide)⟩

/-- C3: when the listing succeeds and the retry policy allows an attempt, the pass runs one
iteration per listed node, in order, and an iteration issues an update request if and only
if `hasUnregisteredTaint` and `isNodeReady` both hold for its node, where
`hasUnregisteredTaint` holds exactly when some taint of the node has the marker key. -/
theorem reconcile_attempts_iff_eligible {σ : Type} (env : Env σ) (s s1 : σ)
    (items : List Node) (hlist : env.List [NodeRegisteredLabelKey] s = (.ok items, s1))
    (hsteps : 0 < env.DefaultRetry.Steps) :
    (Reconcile env s).runs.map (fun r => r.node) = items ∧
    (∀ r ∈ (Reconcile env s).runs,
      (r.attempts ≠ [] ↔
        hasUnregisteredTaint r.node = true ∧ isNodeReady (env.Now r.pre) r.node = true)) ∧
    (∀ node : Node,
      hasUnregisteredTaint node = true ↔ ∃ t ∈ node.Taints, t.Key = UnregisteredTaintKey) := by
  rw [reconcile_ok env s s1 items hlist]
  refine ⟨reconcileLoop_nodes env items s1, fun r hr => ?_, fun node =>
    hasUnregisteredTaintLoop_iff node.Taints⟩
  obtain ⟨s0, node, _, rfl⟩ := reconcileLoop_mem env items s1 r hr
  rw [reconcileNode_attempts_ne_nil_iff env s0 node hsteps, (reconcileNode_pre_node env s0 node).1,
    (reconcileNode_pre_node env s0 node).2]
  simp [eligible]

/-- C3 on a store with a ready-but-unmarked node, a marked-but-not-ready node, a
marked-and-ready-but-not-yet-stable node and an eligible node: only the last is updated. -/
theorem reconcile_attempts_iff_eligible_witness :
    (Reconcile (fakeEnv allSucceed) mixedStore).runs.map (fun r => r.node) =
        [readyUnmarked, markedNotReady, markedNotStable, nodeX] ∧
      (Reconcile (fakeEnv allSucceed) mixedStore).runs.map (fun r => r.attempts.length) =
        [0, 0, 0, 1] :=
  ⟨(reconcile_attempts_iff_eligible (fakeEnv allSucceed) mixedStore mixedStore
      [readyUnmarked, markedNotReady, markedNotStable, nodeX] rfl (by decide)).1, by decide⟩

/-- C5: when the listing fails, the pass returns that error with an empty result (no
requeue interval), runs no loop iteration and leaves the state as the listing left it. -/
theorem reconcile_list_error {σ : Type} (env : Env σ) (s s1 : σ) (err : Err)
    (hlist : env.List [NodeRegisteredLabelKey] s = (.error err, s1)) :
    (Reconcile env s).err = some err ∧ (Reconcile env s).result = ⟨false, 0⟩ ∧
      (Reconcile env s).runs = [] ∧ (Reconcile env s).state = s1 := by
  unfold Reconcile
  rw [hlist]
  exact ⟨rfl, rfl, rfl, rfl⟩

/-- C5 on a store whose list operation fails. -/
theorem reconcile_list_error_witness :
    (Reconcile (fakeEnv listFails) sampleStore).err = some ⟨false, "store unreachable"⟩ ∧
      (Reconcile (fakeEnv listFails) sampleStore).result = ⟨false, 0⟩ ∧
      (Reconcile (fakeEnv listFails) sampleStore).runs = [] ∧
      (Reconcile (fakeEnv listFails) sampleStore).state = sampleStore :=
  reconcile_list_error (fakeEnv listFails) sampleStore sampleStore _ rfl

/-- C9: whenever the listing succeeds, the pass returns no error and a result that
requeues after one minute (sixty thousand million nanoseconds), whatever the listed nodes
are and however their updates end. -/
theorem reconcile_requeues_after_minute {σ : Type} (env : Env σ) (s s1 : σ)
    (items : List Node) (hlist : env.List [NodeRegisteredLabelKey] s = (.ok items, s1)) :
    (Reconcile env s).err = none ∧ (Reconcile env s).result = ⟨false, Minute⟩ ∧
      (Reconcile env s).result.RequeueAfter = 60000000000 := by
  rw [reconcile_ok env s s1 items hlist]
  exact ⟨rfl, rfl, by norm_num [Minute, Second]⟩

/-- C9 on a pass in which the updates of `y` fail. -/
theorem reconcile_requeues_after_minute_witness :
    (Reconcile (fakeEnv yConflicts) sampleStore).err = none ∧
      (Reconcile (fakeEnv yConflicts) sampleStore).result = ⟨false, Minute⟩ ∧
      (Reconcile (fakeEnv yConflicts) sampleStore).result.RequeueAfter = 60000000000 :=
  reconcile_requeues_after_minute (fakeEnv yConflicts) sampleStore sampleStore
    [nodeY, nodeX] rfl

/-- C6: with a retry policy of at least one step, no iteration issues more update requests
than the steps of the policy; an eligible node whose every request is answered with a
conflict gets exactly that many requests and is then logged as failed with the conflict,
and the pass still runs one iteration for every listed node. -/
theorem reconcile_retry_bound {σ : Type} (env : Env σ) (s s1 : σ) (items : List Node)
    (hlist : env.List [NodeRegisteredLabelKey] s = (.ok items, s1))
    (hsteps : 0 < env.DefaultRetry.Steps) :
    (∀ r ∈ (Reconcile env s).runs, r.attempts.length ≤ env.DefaultRetry.Steps.toNat) ∧
    (∀ r ∈ (Reconcile env s).runs, eligible (env.Now r.pre) r.node = true →
      (∀ a ∈ r.attempts, a.conflicted = true) →
      r.attempts.length = env.DefaultRetry.Steps.toNat ∧
        ∃ e, r.log = some (.error e "failed to remove unregistered taint" r.node.Name) ∧
          e.IsConflict = true) ∧
    (Reconcile env s).runs.map (fun r => r.node) = items := by
  rw [reconcile_ok env s s1 items hlist]
  refine ⟨fun r hr => ?_, fun r hr he hall => ?_, reconcileLoop_nodes env items s1⟩
  · obtain ⟨s0, node, _, rfl⟩ := reconcileLoop_mem env items s1 r hr
    exact reconcileNode_attempts_le env s0 node
  · obtain ⟨s0, node, _, rfl⟩ := reconcileLoop_mem env items s1 r hr
    rw [(reconcileNode_pre_node env s0 node).1, (reconcileNode_pre_node env s0 node).2] at he
    rw [(reconcileNode_pre_node env s0 node).2]
    refine reconcileNode_all_conflict env s0 node hsteps he (fun a ha => ?_)
    have hc := hall a ha
    unfold Attempt.conflicted at hc
    rcases hres : a.result with _ | e
    · rw [hres] at hc
      exact absurd hc (by simp)
    · rw [hres] at hc
      exact ⟨e, rfl, hc⟩

/-- C6 on a pass in which every update of `y` conflicts: five requests for `y`, logged as
failed, and `x` is still processed. -/
theorem reconcile_retry_bound_witness :
    yRun ∈ (Reconcile (fakeEnv yConflicts) sampleStore).runs ∧
      yRun.attempts.length = 5 ∧
      (∃ e, yRun.log = some (.error e "failed to remove unregistered taint" "y") ∧
        e.IsConflict = true) ∧
      (Reconcile (fakeEnv yConflicts) sampleStore).runs.map (fun r => r.node) =
        [nodeY, nodeX] :=
  ⟨List.mem_cons_self _ _,
    ((reconcile_retry_bound (fakeEnv yConflicts) sampleStore sampleStore [nodeY, nodeX] rfl
      (by decide)).2.1 yRun (List.mem_cons_self _ _) (by decide) (by decide)).1,
    ((reconcile_retry_bound (fakeEnv yConflicts) sampleStore sampleStore [nodeY, nodeX] rfl
      (by decide)).2.1 yRun (List.mem_cons_self _ _) (by decide) (by decide)).2,
    (reconcile_retry_bound (fakeEnv yConflicts) sampleStore sampleStore [nodeY, nodeX] rfl
      (by decide)).2.2⟩

/-- C7, as amended: every update request of an iteration repeats the request built once
from the node as listed. Its base is the listed node and its object is that node with the
marker-free filter of the listed taints, whatever the store holds by then, and between one
request and the next only the failed request and the backoff sleep act on the state: the
node is not read again. -/
theorem reconcile_retries_repeat_request {σ : Type} (env : Env σ) (s : σ) (r : NodeRun σ)
    (hr : r ∈ (Reconcile env s).runs) :
    (∀ a ∈ r.attempts,
      a.base = r.node ∧ a.obj = { r.node with Taints := withoutMarker r.node.Taints }) ∧
    List.Chain' (fun a b => b.pre = env.Sleep (env.Patch a.obj a.base a.pre).2) r.attempts := by
  obtain ⟨s0, node, rfl⟩ := reconcile_runs_mem env s r hr
  rw [(reconcileNode_pre_node env s0 node).2]
  refine ⟨reconcileNode_attempts_request env s0 node, ?_⟩
  cases h : eligible (env.Now s0) node
  · rw [reconcileNode_skip env s0 node h]
    exact List.chain'_nil
  · rw [(reconcileNode_run env s0 node h).2.2.2.1, List.chain'_map]
    exact (onErrorLoop_calls_chain env _ _ none s0).2

/-- C7 on a store where another writer adds the taint `C` after the listing: each of the
five requests for `x` submits `[A, B]` while the store holds `[A, Marker, B, C]`. -/
theorem reconcile_retries_repeat_request_witness :
    racedRun ∈ (Reconcile racing xStore).runs ∧ racedRun.attempts.length = 5 ∧
      ∀ a ∈ racedRun.attempts,
        a.pre.taintsOf "x" = some [taintA, markerTaint, taintB, taintC] ∧
          a.obj.Taints = [taintA, taintB] :=
  ⟨List.mem_cons_self _ _, by decide, fun a ha =>
    ⟨(by decide : ∀ a ∈ racedRun.attempts,
        a.pre.taintsOf "x" = some [taintA, markerTaint, taintB, taintC]) a ha,
      (congrArg Node.Taints
        (((reconcile_retries_repeat_request racing xStore racedRun
          (List.mem_cons_self _ _)).1 a ha).2)).trans (by decide)⟩⟩

/-- C7 as stated fails: in the pass over `xStore` under `racing` the first request for `x`
submits `[A, B]`, the filter of the listed taints, although the store holds
`[A, Marker, B, C]` when the request is issued, whose filter is `[A, B, C]`. -/
theorem reconcile_attempt_not_freshly_read :
    ¬ (∀ r ∈ (Reconcile racing xStore).runs, ∀ a ∈ r.attempts, freshlyRead a) := by
  intro h
  have h1 : racedRun ∈ (Reconcile racing xStore).runs := List.mem_cons_self _ _
  have h2 : racedAttempt ∈ racedRun.attempts := List.mem_cons_self _ _
  have h3 := h racedRun h1 racedAttempt h2 [taintA, markerTaint, taintB, taintC] (by decide)
  exact absurd h3 (by decide)

/-- C4: on the in-memory store with any assignment of update outcomes to node names, the
pass runs one iteration for every listed node, in order, whatever happens to the others,
and for each iteration whose node is eligible and whose updates are assigned success, no
stored node of that name carries the marker after the pass. -/
theorem fake_isolation (f : Fake) (st : Store) (hl : f.listErr = none)
    (hsteps : 0 < f.retry.Steps) :
    (Reconcile (fakeEnv f) st).runs.map (fun r => r.node) =
        st.list [NodeRegisteredLabelKey] ∧
    ∀ r ∈ (Reconcile (fakeEnv f) st).runs,
      eligible r.pre.clock r.node = true → f.faults r.node.Name = none →
      ∀ m ∈ (Reconcile (fakeEnv f) st).state.nodes,
        m.Name = r.node.Name → hasUnregisteredTaint m = false := by
  rw [reconcile_ok (fakeEnv f) st st _ (fake_list_ok f st hl)]
  exact ⟨reconcileLoop_nodes (fakeEnv f) _ st, fun r hr he hf =>
    fake_loop_clean f hsteps _ st r hr he hf⟩

/-- C4 on a store where the updates of `y`, listed first, always conflict: `x` is still
processed and loses its marker, `y` keeps it. -/
theorem fake_isolation_witness :
    (Reconcile (fakeEnv yConflicts) sampleStore).runs.map (fun r => r.node) = [nodeY, nodeX] ∧
      (∀ m ∈ (Reconcile (fakeEnv yConflicts) sampleStore).state.nodes,
        m.Name = "x" → hasUnregisteredTaint m = false) ∧
      (Reconcile (fakeEnv yConflicts) sampleStore).state.nodes.map
        (fun m => (m.Name, hasUnregisteredTaint m)) = [("y", true), ("x", false)] :=
  ⟨(fake_isolation yConflicts sampleStore rfl (by decide)).1,
    (fake_isolation yConflicts sampleStore rfl (by decide)).2 xRun
      (List.mem_cons_of_mem _ (List.mem_cons_self _ _)) (by decide) (by decide),
    by decide⟩

/-- C8: on the in-memory store with every update succeeding, a second pass run right after
a first one leaves the store as the first pass left it and issues no update request; the
first pass does not move the clock, and every node it issued a request for is free of the
marker afterwards. -/
theorem fake_reconcile_idempotent (f : Fake) (st : Store)
    (hf : ∀ name, f.faults name = none) :
    (Reconcile (fakeEnv f) (Reconcile (fakeEnv f) st).state).state =
        (Reconcile (fakeEnv f) st).state ∧
    (∀ r ∈ (Reconcile (fakeEnv f) (Reconcile (fakeEnv f) st).state).runs, r.attempts = []) ∧
    (Reconcile (fakeEnv f) st).state.clock = st.clock ∧
    (∀ r ∈ (Reconcile (fakeEnv f) st).runs, r.attempts ≠ [] →
      ∀ m ∈ (Reconcile (fakeEnv f) st).state.nodes,
        m.Name = r.node.Name → hasUnregisteredTaint m = false) := by
  rcases hl : f.listErr with _ | err
  · by_cases h0 : f.retry.Steps.toNat = 0
    · have hz := reconcileLoop_zero_steps (fakeEnv f) h0
      have h1 : Reconcile (fakeEnv f) st =
          ⟨⟨false, Minute⟩, none, st, (reconcileLoop (fakeEnv f) st
            (st.list [NodeRegisteredLabelKey])).2⟩ := by
        rw [reconcile_ok (fakeEnv f) st st _ (fake_list_ok f st hl), (hz _ st).1]
      rw [h1]
      refine ⟨?_, ?_, rfl, fun r hr hne => absurd ((hz _ st).2 r hr) hne⟩
      · rw [h1]
      · rw [h1]
        exact (hz _ st).2
    · have hsteps : 0 < f.retry.Steps := by omega
      have hset := settled_loop f hf hsteps st.clock _ st (settled_initial st)
      have h1 : Reconcile (fakeEnv f) st =
          ⟨⟨false, Minute⟩, none, (reconcileLoop (fakeEnv f) st (st.list [NodeRegisteredLabelKey])).1,
            (reconcileLoop (fakeEnv f) st (st.list [NodeRegisteredLabelKey])).2⟩ :=
        reconcile_ok (fakeEnv f) st st _ (fake_list_ok f st hl)
      rw [h1]
      simp only
      have hset2 : settled (reconcileLoop (fakeEnv f) st
          (st.list [NodeRegisteredLabelKey])).1.clock []
          (reconcileLoop (fakeEnv f) st (st.list [NodeRegisteredLabelKey])).1 := by
        rw [hset.1]
        exact hset
      obtain ⟨h2, h3⟩ := settled_second_pass f hl _ hset2
      refine ⟨h2, h3, hset.1, fun r hr hne m hm hname => ?_⟩
      obtain ⟨s0, node, _, hreq⟩ := reconcileLoop_mem (fakeEnv f) _ st r hr
      have hel : eligible r.pre.clock r.node = true := by
        rw [hreq] at hne ⊢
        rw [(reconcileNode_pre_node (fakeEnv f) s0 node).1,
          (reconcileNode_pre_node (fakeEnv f) s0 node).2]
        exact (reconcileNode_attempts_ne_nil (fakeEnv f) s0 node hne).1
      exact fake_loop_clean f hsteps _ st r hr hel (hf _) m hm hname
  · have h1 := fake_list_error f st err hl
    have h2 : (Reconcile (fakeEnv f) st).state = st := by rw [h1]
    have h3 : (Reconcile (fakeEnv f) st).runs = [] := by rw [h1]
    rw [h2, h3]
    exact ⟨h2, fun r hr => absurd hr (List.not_mem_nil r), rfl,
      fun r hr => absurd hr (List.not_mem_nil r)⟩

/-- C8 on `mixedStore` with every update succeeding: the second pass changes nothing and
issues no request. -/
theorem fake_reconcile_idempotent_witness :
    (Reconcile (fakeEnv allSucceed) (Reconcile (fakeEnv allSucceed) mixedStore).state).state =
        (Reconcile (fakeEnv allSucceed) mixedStore).state ∧
      (Reconcile (fakeEnv allSucceed) mixedStore).runs.map (fun r => r.attempts.length) =
        [0, 0, 0, 1] ∧
      (Reconcile (fakeEnv allSucceed) (Reconcile (fakeEnv allSucceed) mixedStore).state).runs.map
        (fun r => r.attempts.length) = [0, 0, 0, 0] :=
  ⟨(fake_reconcile_idempotent allSucceed mixedStore (fun _ => rfl)).1, by decide, by decide⟩

end UnregisteredTaint
